import Mathlib

/-!
Shallow embedding of the gosince repository (package `versiondb`: files
`split.go` and `versiondb.go`) together with theorems checking the frozen
claims about its specification.

Conventions of the embedding:
- Go strings are modelled as `List Char` (all inputs of interest are ASCII,
  where Go's byte indexing agrees with character indexing).
- Go maps are modelled as association lists (`lookupA` / `setA`); this is
  faithful for every lookup, update and key-set observation the program makes.
- Go panics (the tokenizer's panic-based errors and runtime slice-bounds
  panics) are modelled as `Except` errors of dedicated kinds.
- The tokenizer's channel of runes is modelled as a `List Char` that each
  loop consumes from the front, returning the unconsumed remainder; the
  recursion is bounded by a fuel parameter.  Every loop iteration or nested
  call consumes at least one character, so `length + 1` fuel (what the
  top-level wrappers pass) always suffices; the fuel-exhaustion branches are
  unreachable from the wrappers and are mapped to an error value.
-/

/-- The quote character.  Go source: the `'"'` case of the tokenizer. -/
def quoteChar : Char := Char.ofNat 34

/-- The apostrophe character.  Go source: the `'\''` case of the tokenizer. -/
def apoChar : Char := Char.ofNat 39

/-- The backslash character.  Go source: the `'\\'` case of `consumeString`. -/
def backslashChar : Char := Char.ofNat 92

/-- Tokenizer output tree.  Go source: interface `node` with the two
implementations `stringNode` (an atom holding raw text) and `listNode`
(a group of children collected between matching delimiters). -/
inductive Node where
  | str : List Char → Node
  | group : List Node → Node
deriving Repr

/-- Go source: the `cast` methods.  `stringNode.cast` returns the text and a
nil slice; `listNode.cast` returns the empty string and the children. -/
def Node.cast : Node → List Char × List Node
  | .str s => (s, [])
  | .group l => ([], l)

/-- The panic-based error values of `split.go`:
`closing` is `errParsingClosing` ("wait closing separator"),
`unendedString` is `errParsingString` ("unended string"),
`thirdPart` is `errParsingThirdPart` ("unhandled third part in definition"),
`unexpectedClosing` is `errParsingUnexpectedClosing` ("unexpected closing separator"),
`wrongClosing` is `errParsingWrongClosing` ("wait another closing separator"). -/
inductive SplitErr where
  | closing
  | unendedString
  | thirdPart
  | unexpectedClosing
  | wrongClosing
deriving DecidableEq, Repr

/-- Go source: `appendBuffer` — flush a non-empty buffer as a `stringNode`;
an empty buffer adds nothing. -/
def appendBuffer (splitted : List Node) (buffer : List Char) :
    List Node × List Char :=
  if buffer.isEmpty then (splitted, buffer)
  else (splitted ++ [Node.str buffer], [])

/-- Go source: `consumeString` — consume characters until the matching quote
`delim`; a backslash keeps itself and the following character verbatim.
`none` models the `panic(errParsingString)` reached when the input ends
inside the literal (including directly after a backslash, where the failed
channel receive is followed by the loop observing the closed channel).
Returns the literal's text and the unconsumed remainder. -/
def consumeString (delim : Char) : List Char → Option (List Char × List Char)
  | [] => none
  | c :: rest =>
    if c = delim then some ([], rest)
    else if c = backslashChar then
      match rest with
      | [] => none
      | c2 :: rest2 =>
        match consumeString delim rest2 with
        | none => none
        | some (buf, r) => some (c :: c2 :: buf, r)
    else
      match consumeString delim rest with
      | none => none
      | some (buf, r) => some (c :: buf, r)

/-- Go source: `splitSub` — collect the elements of a group opened before the
call, until the matching `delim`.  The switch cases in source order: `delim`
closes the group; quotes start a literal; `(`/`[`/`{` open a nested group;
other closers panic `errParsingWrongClosing`; `,` and space flush the buffer;
anything else extends the buffer.  Running out of characters models the
`panic(errParsingClosing)` after the loop.  `fuel` bounds the recursion and
is unreachable at `0` when the wrapper passes `length + 1`. -/
def splitSub : Nat → Char → List Char → List Node → List Char →
    Except SplitErr (List Node × List Char)
  | _, _, _, _, [] => .error .closing
  | 0, _, _, _, _ :: _ => .error .closing
  | fuel+1, delim, buffer, acc, c :: rest =>
    if c = delim then
      .ok ((appendBuffer acc buffer).1, rest)
    else if c = quoteChar ∨ c = apoChar then
      match consumeString c rest with
      | none => .error .unendedString
      | some (buf, rest2) =>
        splitSub fuel delim [] ((appendBuffer acc buffer).1 ++ [Node.str buf]) rest2
    else if c = '(' then
      match splitSub fuel ')' [] [] rest with
      | .error e => .error e
      | .ok (g, rest2) =>
        splitSub fuel delim [] ((appendBuffer acc buffer).1 ++ [Node.group g]) rest2
    else if c = '[' then
      match splitSub fuel ']' [] [] rest with
      | .error e => .error e
      | .ok (g, rest2) =>
        splitSub fuel delim [] ((appendBuffer acc buffer).1 ++ [Node.group g]) rest2
    else if c = '{' then
      match splitSub fuel '}' [] [] rest with
      | .error e => .error e
      | .ok (g, rest2) =>
        splitSub fuel delim [] ((appendBuffer acc buffer).1 ++ [Node.group g]) rest2
    else if c = ')' ∨ c = ']' ∨ c = '}' then
      .error .wrongClosing
    else if c = ',' ∨ c = ' ' then
      splitSub fuel delim [] (appendBuffer acc buffer).1 rest
    else
      splitSub fuel delim (buffer ++ [c]) acc rest

/-- Go source: the main loop of `smartSplit`.  Note the `case ',': break`
of the source: in Go, `break` terminates the `switch`, not the loop, so a
top-level comma neither flushes the buffer nor stops the loop — it is
skipped and the loop keeps the pending buffer.  The loop ends only when the
character stream is exhausted, flushing the buffer and returning the (always
empty) remainder. -/
def smartSplitLoop : Nat → List Char → List Node → List Char →
    Except SplitErr (List Node × List Char)
  | _, buffer, acc, [] => .ok ((appendBuffer acc buffer).1, [])
  | 0, _, _, _ :: _ => .error .closing
  | fuel+1, buffer, acc, c :: rest =>
    if c = quoteChar ∨ c = apoChar then
      match consumeString c rest with
      | none => .error .unendedString
      | some (buf, rest2) =>
        smartSplitLoop fuel [] ((appendBuffer acc buffer).1 ++ [Node.str buf]) rest2
    else if c = '(' then
      match splitSub fuel ')' [] [] rest with
      | .error e => .error e
      | .ok (g, rest2) =>
        smartSplitLoop fuel [] ((appendBuffer acc buffer).1 ++ [Node.group g]) rest2
    else if c = '[' then
      match splitSub fuel ']' [] [] rest with
      | .error e => .error e
      | .ok (g, rest2) =>
        smartSplitLoop fuel [] ((appendBuffer acc buffer).1 ++ [Node.group g]) rest2
    else if c = '{' then
      match splitSub fuel '}' [] [] rest with
      | .error e => .error e
      | .ok (g, rest2) =>
        smartSplitLoop fuel [] ((appendBuffer acc buffer).1 ++ [Node.group g]) rest2
    else if c = ')' ∨ c = ']' ∨ c = '}' then
      .error .unexpectedClosing
    else if c = ',' then
      smartSplitLoop fuel buffer acc rest
    else if c = ' ' then
      smartSplitLoop fuel [] (appendBuffer acc buffer).1 rest
    else
      smartSplitLoop fuel (buffer ++ [c]) acc rest

/-- Go source: `splitSecond` — the second top-level field list, read from the
same character stream after the main loop; a comma here models
`panic(errParsingThirdPart)`, another closer `panic(errParsingWrongClosing)`. -/
def splitSecond : Nat → List Char → List Node → List Char →
    Except SplitErr (List Node)
  | _, buffer, acc, [] => .ok (appendBuffer acc buffer).1
  | 0, _, _, _ :: _ => .error .closing
  | fuel+1, buffer, acc, c :: rest =>
    if c = quoteChar ∨ c = apoChar then
      match consumeString c rest with
      | none => .error .unendedString
      | some (buf, rest2) =>
        splitSecond fuel [] ((appendBuffer acc buffer).1 ++ [Node.str buf]) rest2
    else if c = '(' then
      match splitSub fuel ')' [] [] rest with
      | .error e => .error e
      | .ok (g, rest2) =>
        splitSecond fuel [] ((appendBuffer acc buffer).1 ++ [Node.group g]) rest2
    else if c = '[' then
      match splitSub fuel ']' [] [] rest with
      | .error e => .error e
      | .ok (g, rest2) =>
        splitSecond fuel [] ((appendBuffer acc buffer).1 ++ [Node.group g]) rest2
    else if c = '{' then
      match splitSub fuel '}' [] [] rest with
      | .error e => .error e
      | .ok (g, rest2) =>
        splitSecond fuel [] ((appendBuffer acc buffer).1 ++ [Node.group g]) rest2
    else if c = ')' ∨ c = ']' ∨ c = '}' then
      .error .wrongClosing
    else if c = ',' then
      .error .thirdPart
    else if c = ' ' then
      splitSecond fuel [] (appendBuffer acc buffer).1 rest
    else
      splitSecond fuel (buffer ++ [c]) acc rest

/-- Go source: `smartSplit` — run the main loop over the whole character
stream, then `splitSecond` over whatever the main loop left unconsumed. -/
def smartSplit (line : List Char) : Except SplitErr (List Node × List Node) :=
  match smartSplitLoop (line.length + 1) [] [] line with
  | .error e => .error e
  | .ok (splitted, rest) =>
    match splitSecond (rest.length + 1) [] [] rest with
    | .error e => .error e
    | .ok splitted2 => .ok (splitted, splitted2)

/-- ASCII subset of Go's `unicode.IsSpace`, as used by `strings.TrimSpace`
on the ASCII version-file lines: space, tab, newline, vertical tab, form
feed, carriage return. -/
def goIsSpace (c : Char) : Bool :=
  c = ' ' ∨ c = Char.ofNat 9 ∨ c = Char.ofNat 10 ∨ c = Char.ofNat 11 ∨
    c = Char.ofNat 12 ∨ c = Char.ofNat 13

/-- Go source: `strings.TrimSpace` — drop leading and trailing space. -/
def trimSpace (l : List Char) : List Char :=
  (((l.dropWhile goIsSpace).reverse).dropWhile goIsSpace).reverse

/-- Go source: `strings.IndexByte` — position of the first occurrence, with
`none` in place of Go's `-1`. -/
def indexOfChar (l : List Char) (c : Char) : Option Nat :=
  l.findIdx? (· = c)

/-- Go source: `strings.LastIndexByte` — position of the last occurrence,
with `none` in place of Go's `-1`. -/
def lastIndexOfChar (l : List Char) (c : Char) : Option Nat :=
  match indexOfChar l.reverse c with
  | none => none
  | some i => some (l.length - 1 - i)

/-- Go source: `strings.CutPrefix` — `some` of the remainder when `pre` is a
prefix, `none` otherwise (Go's `ok = false`). -/
def cutPfx : List Char → List Char → Option (List Char)
  | [], l => some l
  | _ :: _, [] => none
  | p :: ps, c :: cs => if c = p then cutPfx ps cs else none

/-- Go source: `strings.ToLower`, restricted to ASCII as in the version
files. -/
def toLowerL (l : List Char) : List Char :=
  l.map Char.toLower

/-- Go slice expression `l[i:]` with an `Int` index: `none` models the
runtime panic `slice bounds out of range` when `i` is negative or larger
than the length. -/
def goSliceFrom (l : List Char) (i : Int) : Option (List Char) :=
  if 0 ≤ i ∧ i ≤ (l.length : Int) then some (l.drop i.toNat) else none

/-- Association-list reading of a Go map lookup `m[k]` (presence test). -/
def lookupA {α : Type} : List (List Char × α) → List Char → Option α
  | [], _ => none
  | (k, v) :: rest, key => if key = k then some v else lookupA rest key

/-- Association-list reading of a Go map update `m[k] = v`. -/
def setA {α : Type} : List (List Char × α) → List Char → α → List (List Char × α)
  | [], key, v => [(key, v)]
  | (k, w) :: rest, key, v =>
    if key = k then (k, v) :: rest else (k, w) :: setA rest key v

/-- The key list of an association list (a Go map's key set, in insertion
order). -/
def keysA {α : Type} (l : List (List Char × α)) : List (List Char) :=
  l.map (fun p => p.1)

/-- Go source: the inner map `map[string][2]string` of `VersionDatas.data` —
per-package table from lowercased symbol to (introduced, deprecated)
version pair; the empty deprecated version is `[]` (Go's `""`). -/
abbrev PkgSymbols := List (List Char × (List Char × List Char))

/-- Go source: `VersionDatas.data` — package path to symbol table. -/
abbrev Data := List (List Char × PkgSymbols)

/-- One `[3]string` entry of the search index: display entry, introduced
version, deprecated version (`[]` for Go's `""`). -/
abbrev IndexEntry := List Char × List Char × List Char

/-- Go source: `VersionDatas.index` — search key to entry list. -/
abbrev SIndex := List (List Char × List IndexEntry)

/-- The returned error values of `versiondb.go`, named after the
`errParsing*` variables (`comma` = `errParsingComma`, `methodEmpty` =
`errParsingMethod`, `methodNameEmpty` = `errParsingMethodName`, `nameEmpty`
= `errParsingName`, `receiverEmpty` = `errParsingReceiver`,
`receiverNameEmpty` = `errParsingReceiverName`, `start` = `errParsingStart`,
`subNameEmpty` = `errParsingSubName`, `unknownType` = `errParsingType`,
`uncomplete` = `errParsingUncomplete`). -/
inductive ParseErr where
  | comma
  | methodEmpty
  | methodNameEmpty
  | nameEmpty
  | receiverEmpty
  | receiverNameEmpty
  | start
  | subNameEmpty
  | unknownType
  | uncomplete
deriving DecidableEq, Repr

/-- How processing a line can fail: a returned `errParsing*` error, a
propagated tokenizer panic, or a runtime slice-bounds panic. -/
inductive Failure where
  | perr : ParseErr → Failure
  | splitPanic : SplitErr → Failure
  | slicePanic : Failure
deriving DecidableEq, Repr

/-- Go source: the loop body of `addIndexEntry` for a deprecation — set the
third field of the first entry whose display text equals `entry`, then stop;
no match leaves the list unchanged. -/
def updateDeprecatedEntry : List IndexEntry → List Char → List Char →
    List IndexEntry
  | [], _, _ => []
  | (e, v, d) :: rest, entry, version =>
    if e = entry then (e, v, version) :: rest
    else (e, v, d) :: updateDeprecatedEntry rest entry version

/-- Go source: `addIndexEntry` — a deprecation updates the third field of
the first matching entry under `key` (reading a missing key iterates over
`nil` and changes nothing); otherwise the entry is appended under `key`. -/
def addIndexEntry (idx : SIndex) (key entry version : List Char)
    (deprecated : Bool) : SIndex :=
  if deprecated then
    match lookupA idx key with
    | none => idx
    | some entries => setA idx key (updateDeprecatedEntry entries entry version)
  else
    setA idx key ((lookupA idx key).getD [] ++ [(entry, version, [])])

/-- Go source: `addIndexPackageEntry` — index a package under its final path
segment. -/
def addIndexPackageEntry (idx : SIndex) (pkg version : List Char) : SIndex :=
  match lastIndexOfChar pkg '/' with
  | none => addIndexEntry idx pkg pkg version false
  | some i => addIndexEntry idx (pkg.drop (i + 1)) pkg version false

/-- Go source: `addIndexSymbolEntry` — index `pkg ++ " " ++ symbol` under the
lowercased final dotted segment of the symbol. -/
def addIndexSymbolEntry (idx : SIndex) (pkg symbol version : List Char)
    (deprecated : Bool) : SIndex :=
  let entry := pkg ++ ' ' :: symbol
  match lastIndexOfChar symbol '.' with
  | none => addIndexEntry idx (toLowerL symbol) entry version deprecated
  | some i => addIndexEntry idx (toLowerL (symbol.drop (i + 1))) entry version deprecated

/-- Go source: `register` — for a deprecation line, read the record at the
lowercased key (Go's zero value `["", ""]` when absent), set its deprecated
field and store it back; otherwise a present key is left untouched ("no
override") and an absent key gets `[version, ""]`.  Returns the updated
package table and search index. -/
def register (pkgSymbols : PkgSymbols) (idx : SIndex)
    (pkg symbol version : List Char) (deprecated : Bool) :
    PkgSymbols × SIndex :=
  let symbolLower := toLowerL symbol
  if deprecated then
    let symbolData := (lookupA pkgSymbols symbolLower).getD ([], [])
    (setA pkgSymbols symbolLower (symbolData.1, version),
      addIndexSymbolEntry idx pkg symbol version true)
  else
    match lookupA pkgSymbols symbolLower with
    | some _ => (pkgSymbols, idx)
    | none =>
      (setA pkgSymbols symbolLower (version, []),
        addIndexSymbolEntry idx pkg symbol version false)

/-- Go source: the comment handling at the top of the line loop of
`parseVersionData` — `none` when the whole line is a comment (`#` at index
0, `continue`), otherwise the line cut before the first `#`. -/
def cutComment (line : List Char) : Option (List Char) :=
  match indexOfChar line '#' with
  | none => some line
  | some 0 => none
  | some i => some (line.take i)

/-- Go source: the `switch symbolType` of `parseVersionData`, computing the
canonical symbol from the two token lists (`firstPart` has at least two
elements, checked by the caller). -/
def symbolFromParts (firstPart secondPart : List Node) :
    Except ParseErr (List Char) :=
  let symbolType := ((firstPart.headD (Node.str [])).cast).1
  if symbolType = "const".toList ∨ symbolType = "func".toList ∨
      symbolType = "var".toList then
    let symbol := ((firstPart.getD 1 (Node.str [])).cast).1
    if symbol = [] then .error .nameEmpty else .ok symbol
  else if symbolType = "method".toList then
    if firstPart.length < 3 then .error .methodEmpty
    else
      let receiver := ((firstPart.getD 1 (Node.str [])).cast).2
      if receiver.isEmpty then .error .receiverEmpty
      else
        let typeName := ((receiver.headD (Node.str [])).cast).1
        if typeName = [] then .error .receiverNameEmpty
        else
          let typeName :=
            match typeName with
            | '*' :: restT => restT
            | _ => typeName
          let methodName := ((firstPart.getD 2 (Node.str [])).cast).1
          if methodName = [] then .error .methodNameEmpty
          else .ok (typeName ++ '.' :: methodName)
  else if symbolType = "type".toList then
    let symbol := ((firstPart.getD 1 (Node.str [])).cast).1
    if symbol = [] then .error .nameEmpty
    else if secondPart.isEmpty then .ok symbol
    else
      let subName := ((secondPart.headD (Node.str [])).cast).1
      if subName = [] then .error .subNameEmpty
      else .ok (symbol ++ '.' :: subName)
  else .error .unknownType

/-- Go source: the body of the line loop of `parseVersionData` — comment
stripping, blank skip, the deprecation-suffix check (whose Go slice
`trimmedLine[len-12:]` panics on short lines), the `pkg ` prefix and comma
split, first-sight package registration, tokenizing, symbol assembly and
`register`.  On an error return the partially mutated Go maps are discarded
by every caller of `LoadDatas`, so the error carries no state. -/
def processLine (data : Data) (idx : SIndex) (version line : List Char) :
    Except Failure (Data × SIndex) :=
  match cutComment line with
  | none => .ok (data, idx)
  | some line1 =>
    let trimmedLine := trimSpace line1
    if trimmedLine = [] then .ok (data, idx)
    else
      match goSliceFrom trimmedLine ((trimmedLine.length : Int) - 12) with
      | none => .error .slicePanic
      | some tail =>
        let deprecated := tail = "//deprecated".toList
        let trimmed2 :=
          if deprecated then trimmedLine.take (trimmedLine.length - 12)
          else trimmedLine
        match cutPfx "pkg ".toList trimmed2 with
        | none => .error (.perr .start)
        | some lineRest =>
          match indexOfChar lineRest ',' with
          | none => .error (.perr .comma)
          | some indexComma =>
            let pkg := lineRest.take indexComma
            let state1 :=
              match lookupA data pkg with
              | some ps => (ps, data, idx)
              | none =>
                let ps : PkgSymbols := [([], (version, []))]
                (ps, setA data pkg ps, addIndexPackageEntry idx pkg version)
            match goSliceFrom lineRest ((indexComma : Int) + 2) with
            | none => .error .slicePanic
            | some symbolDesc =>
              match smartSplit symbolDesc with
              | .error e => .error (.splitPanic e)
              | .ok (firstPart, secondPart) =>
                if firstPart.length < 2 then .error (.perr .uncomplete)
                else
                  match symbolFromParts firstPart secondPart with
                  | .error e => .error (.perr e)
                  | .ok symbol =>
                    let res := register state1.1 state1.2.2 pkg symbol version deprecated
                    .ok (setA state1.2.1 pkg res.1, res.2)

/-- Go source: `parseVersionData` — process the scanner's lines in order,
stopping at the first failure. -/
def parseVersionData (data : Data) (idx : SIndex) (version : List Char) :
    List (List Char) → Except Failure (Data × SIndex)
  | [] => .ok (data, idx)
  | line :: rest =>
    match processLine data idx version line with
    | .error e => .error e
    | .ok s => parseVersionData s.1 s.2 version rest

/-- Go source: the calls `dl.parseVersionData(version, data)` performed by
`load` for consecutive version files, abstracted over the list of
(version, lines) files delivered by `read`. -/
def loadFiles (data : Data) (idx : SIndex) :
    List (List Char × List (List Char)) → Except Failure (Data × SIndex)
  | [] => .ok (data, idx)
  | (version, lines) :: files =>
    match parseVersionData data idx version lines with
    | .error e => .error e
    | .ok s => loadFiles s.1 s.2 files

/-- The query errors of `versiondb.go`: `ErrUnknownPackage` ("package not
found") and `ErrUnknownSymbol` ("symbol not found"). -/
inductive SinceErr where
  | unknownPackage
  | unknownSymbol
deriving DecidableEq, Repr

/-- Go source: `VersionDatas.Since` — look up the package, then the symbol
in its table; returns `since[0]`, the introduced version only. -/
def Since (data : Data) (pkg symbol : List Char) :
    Except SinceErr (List Char) :=
  match lookupA data pkg with
  | none => .error .unknownPackage
  | some pkgSymbols =>
    match lookupA pkgSymbols symbol with
    | none => .error .unknownSymbol
    | some since => .ok since.1

/-- The observable input/output operations performed by `read` and
`writeFile`: a local cache read attempt, a remote fetch, a parent-directory
creation (`os.MkdirAll`), and a cache-file write (`os.WriteFile`). -/
inductive IoOp where
  | fsRead : List Char → IoOp
  | fetch : List Char → IoOp
  | mkdirAll : List Char → IoOp
  | fileWrite : List Char → List Char → IoOp
deriving DecidableEq, Repr

/-- Environment of one `read` call: the outcome of `os.ReadFile`
(`some` bytes on success, `none` on failure) and the outcome of `download`
(`Except` of the body or a network error). -/
structure ReadEnv where
  localData : Option (List Char)
  remote : Except Unit (List Char)

/-- The error outcomes of `read`: a failed download, and
`errUnexistingVersion` (the end-of-series sentinel raised on the trimmed
"404: Not Found" body). -/
inductive ReadErr where
  | netErr
  | endOfSeries
deriving DecidableEq, Repr

/-- Go source: `writeFile` — create the parent directories when the path
contains a `/`, then write the file; returned as the list of file-system
operations performed. -/
def writeFile (path data : List Char) : List IoOp :=
  match lastIndexOfChar path '/' with
  | none => [.fileWrite path data]
  | some i => [.mkdirAll (path.take i), .fileWrite path data]

/-- Go source: `dataLoader.read` — try the local cache file first and return
its bytes on success; otherwise download, treat a trimmed "404: Not Found"
body as `errUnexistingVersion` without caching, and otherwise persist the
bytes to the cache path before returning them.  The second component is the
trace of performed operations, in order. -/
def dataLoader.read (env : ReadEnv) (repobase sourceBase fileEnd : List Char) :
    Except ReadErr (List Char) × List IoOp :=
  let filePath := repobase ++ fileEnd
  let fileURL := sourceBase ++ fileEnd
  match env.localData with
  | some data => (.ok data, [.fsRead filePath])
  | none =>
    match env.remote with
    | .error _ => (.error .netErr, [.fsRead filePath, .fetch fileURL])
    | .ok data =>
      if trimSpace data = "404: Not Found".toList then
        (.error .endOfSeries, [.fsRead filePath, .fetch fileURL])
      else
        (.ok data, [.fsRead filePath, .fetch fileURL] ++ writeFile filePath data)

/-- Atoms are nonempty, recursively through groups: the shape of tokenizer
output promised by the "no empty elements retained" part of the spec (true
for quote-free input; a quoted literal may produce an empty atom). -/
inductive GoodNode : Node → Prop where
  | str : ∀ s, s ≠ [] → GoodNode (Node.str s)
  | group : ∀ l, (∀ n ∈ l, GoodNode n) → GoodNode (Node.group l)

/-- A small database for exercising `Since`: package io, introduced in go1,
with symbol reader introduced in go1 and deprecated in go1.21. -/
def sinceDemo : Data :=
  [("io".toList,
    [([], ("go1".toList, [])),
     ("reader".toList, ("go1".toList, "go1.21".toList))])]

theorem lookupA_setA_self {α : Type} (l : List (List Char × α)) (k : List Char) (v : α) :
    lookupA (setA l k v) k = some v := by
  induction l with
  | nil => simp [setA, lookupA]
  | cons hd tl ih =>
    obtain ⟨k0, v0⟩ := hd
    by_cases hk : k = k0
    · simp [setA, lookupA, hk]
    · simp [setA, lookupA, hk, ih]

theorem lookupA_setA_ne {α : Type} (l : List (List Char × α)) (k k2 : List Char) (v : α)
    (h : k2 ≠ k) : lookupA (setA l k v) k2 = lookupA l k2 := by
  induction l with
  | nil => simp [setA, lookupA, h]
  | cons hd tl ih =>
    obtain ⟨k0, v0⟩ := hd
    by_cases hk : k = k0
    · subst hk
      simp [setA, lookupA, h]
    · by_cases hk2 : k2 = k0
      · simp [setA, lookupA, hk, hk2]
      · simp [setA, lookupA, hk, hk2, ih]

theorem setA_absent_append {α : Type} (l : List (List Char × α)) (k : List Char) (v : α)
    (h : lookupA l k = none) : setA l k v = l ++ [(k, v)] := by
  induction l with
  | nil => simp [setA]
  | cons hd tl ih =>
    obtain ⟨k0, v0⟩ := hd
    by_cases hk : k = k0
    · simp [lookupA, hk] at h
    · simp [lookupA, hk] at h
      simp [setA, hk, ih h]

theorem keysA_setA_present {α : Type} (l : List (List Char × α)) (k : List Char) (v w : α)
    (h : lookupA l k = some w) : keysA (setA l k v) = keysA l := by
  induction l with
  | nil => simp [lookupA] at h
  | cons hd tl ih =>
    obtain ⟨k0, v0⟩ := hd
    by_cases hk : k = k0
    · simp [setA, keysA, hk]
    · simp [lookupA, hk] at h
      simp [setA, keysA, hk] at ih ⊢
      exact ih h

theorem consumeString_rest_sublist : ∀ (chars : List Char) (delim : Char) (buf r : List Char),
    consumeString delim chars = some (buf, r) → r.Sublist chars
  | [], _, _, _ => by simp [consumeString]
  | c :: rest, delim, buf, r => by
    unfold consumeString
    split_ifs with h1 h2
    · intro h
      injection h with h
      injection h with hbuf hr
      subst hr
      exact List.Sublist.cons c (List.Sublist.refl rest)
    · match rest with
      | [] => intro h; simp at h
      | c2 :: rest2 =>
        cases hc : consumeString delim rest2 with
        | none => intro h; simp [hc] at h
        | some p =>
          obtain ⟨buf2, r2⟩ := p
          intro h
          simp only [hc] at h
          injection h with h
          injection h with hbuf hr
          subst hr
          have := consumeString_rest_sublist rest2 delim buf2 r2 hc
          exact (this.trans (List.Sublist.cons c2 (List.Sublist.refl rest2))).trans
            (List.Sublist.cons c (List.Sublist.refl (c2 :: rest2)))
    · cases hc : consumeString delim rest with
      | none => intro h; simp [hc] at h
      | some p =>
        obtain ⟨buf2, r2⟩ := p
        intro h
        simp only [hc] at h
        injection h with h
        injection h with hbuf hr
        subst hr
        exact (consumeString_rest_sublist rest delim buf2 r2 hc).trans
          (List.Sublist.cons c (List.Sublist.refl rest))

theorem splitSub_rest_sublist : ∀ (fuel : Nat) (delim : Char) (buffer : List Char)
    (acc : List Node) (chars : List Char) (ns : List Node) (r : List Char),
    splitSub fuel delim buffer acc chars = .ok (ns, r) → r.Sublist chars := by
  intro fuel
  induction fuel with
  | zero =>
    intro delim buffer acc chars ns r h
    cases chars <;> simp [splitSub] at h
  | succ n ih =>
    intro delim buffer acc chars ns r h
    cases chars with
    | nil => simp [splitSub] at h
    | cons c rest =>
      have hstep : r.Sublist rest → r.Sublist (c :: rest) :=
        fun hs => hs.trans (List.Sublist.cons c (List.Sublist.refl rest))
      rw [splitSub] at h
      split_ifs at h with h1 h2 h3 h4 h5 h6 h7
      · injection h with h
        injection h with hns hr
        subst hr
        exact List.Sublist.cons c (List.Sublist.refl rest)
      · cases hc : consumeString c rest with
        | none => rw [hc] at h; simp at h
        | some p =>
          obtain ⟨buf2, rest2⟩ := p
          rw [hc] at h
          exact hstep ((ih _ _ _ _ _ _ h).trans (consumeString_rest_sublist rest c buf2 rest2 hc))
      · cases hs : splitSub n ')' [] [] rest with
        | error e => rw [hs] at h; simp at h
        | ok p =>
          obtain ⟨g, rest2⟩ := p
          rw [hs] at h
          exact hstep ((ih _ _ _ _ _ _ h).trans (ih _ _ _ _ _ _ hs))
      · cases hs : splitSub n ']' [] [] rest with
        | error e => rw [hs] at h; simp at h
        | ok p =>
          obtain ⟨g, rest2⟩ := p
          rw [hs] at h
          exact hstep ((ih _ _ _ _ _ _ h).trans (ih _ _ _ _ _ _ hs))
      · cases hs : splitSub n '}' [] [] rest with
        | error e => rw [hs] at h; simp at h
        | ok p =>
          obtain ⟨g, rest2⟩ := p
          rw [hs] at h
          exact hstep ((ih _ _ _ _ _ _ h).trans (ih _ _ _ _ _ _ hs))
      all_goals first
        | exact hstep (ih _ _ _ _ _ _ h)
        | simp at h

theorem splitSub_ne_thirdPart : ∀ (fuel : Nat) (delim : Char) (buffer : List Char)
    (acc : List Node) (chars : List Char),
    splitSub fuel delim buffer acc chars ≠ .error SplitErr.thirdPart := by
  intro fuel
  induction fuel with
  | zero =>
    intro delim buffer acc chars
    cases chars <;> simp [splitSub]
  | succ n ih =>
    intro delim buffer acc chars
    cases chars with
    | nil => simp [splitSub]
    | cons c rest =>
      rw [splitSub]
      split_ifs with h1 h2 h3 h4 h5 h6 h7
      · simp
      · cases hc : consumeString c rest with
        | none => simp
        | some p => obtain ⟨buf2, rest2⟩ := p; exact ih _ _ _ _
      · cases hs : splitSub n ')' [] [] rest with
        | error e => exact fun h => ih _ _ _ _ (hs.trans h)
        | ok p => obtain ⟨g, rest2⟩ := p; exact ih _ _ _ _
      · cases hs : splitSub n ']' [] [] rest with
        | error e => exact fun h => ih _ _ _ _ (hs.trans h)
        | ok p => obtain ⟨g, rest2⟩ := p; exact ih _ _ _ _
      · cases hs : splitSub n '}' [] [] rest with
        | error e => exact fun h => ih _ _ _ _ (hs.trans h)
        | ok p => obtain ⟨g, rest2⟩ := p; exact ih _ _ _ _
      all_goals first
        | exact ih _ _ _ _
        | simp

theorem smartSplitLoop_ne_thirdPart : ∀ (fuel : Nat) (buffer : List Char)
    (acc : List Node) (chars : List Char),
    smartSplitLoop fuel buffer acc chars ≠ .error SplitErr.thirdPart := by
  intro fuel
  induction fuel with
  | zero =>
    intro buffer acc chars
    cases chars <;> simp [smartSplitLoop]
  | succ n ih =>
    intro buffer acc chars
    cases chars with
    | nil => simp [smartSplitLoop]
    | cons c rest =>
      rw [smartSplitLoop]
      split_ifs with h1 h2 h3 h4 h5 h6 h7
      · cases hc : consumeString c rest with
        | none => simp
        | some p => obtain ⟨buf2, rest2⟩ := p; exact ih _ _ _
      · cases hs : splitSub n ')' [] [] rest with
        | error e => exact fun h => splitSub_ne_thirdPart n ')' [] [] rest (hs.trans h)
        | ok p => obtain ⟨g, rest2⟩ := p; exact ih _ _ _
      · cases hs : splitSub n ']' [] [] rest with
        | error e => exact fun h => splitSub_ne_thirdPart n ']' [] [] rest (hs.trans h)
        | ok p => obtain ⟨g, rest2⟩ := p; exact ih _ _ _
      · cases hs : splitSub n '}' [] [] rest with
        | error e => exact fun h => splitSub_ne_thirdPart n '}' [] [] rest (hs.trans h)
        | ok p => obtain ⟨g, rest2⟩ := p; exact ih _ _ _
      all_goals first
        | exact ih _ _ _
        | simp

theorem smartSplitLoop_rest_nil : ∀ (fuel : Nat) (buffer : List Char)
    (acc ns : List Node) (chars r : List Char),
    smartSplitLoop fuel buffer acc chars = .ok (ns, r) → r = [] := by
  intro fuel
  induction fuel with
  | zero =>
    intro buffer acc ns chars r h
    cases chars with
    | nil =>
      rw [smartSplitLoop] at h
      injection h with h
      injection h with hns hr
      exact hr.symm
    | cons c rest => simp [smartSplitLoop] at h
  | succ n ih =>
    intro buffer acc ns chars r h
    cases chars with
    | nil =>
      rw [smartSplitLoop] at h
      injection h with h
      injection h with hns hr
      exact hr.symm
    | cons c rest =>
      rw [smartSplitLoop] at h
      split_ifs at h with h1 h2 h3 h4 h5 h6 h7
      · cases hc : consumeString c rest with
        | none => rw [hc] at h; simp at h
        | some p => obtain ⟨buf2, rest2⟩ := p; rw [hc] at h; exact ih _ _ _ _ _ h
      · cases hs : splitSub n ')' [] [] rest with
        | error e => rw [hs] at h; simp at h
        | ok p => obtain ⟨g, rest2⟩ := p; rw [hs] at h; exact ih _ _ _ _ _ h
      · cases hs : splitSub n ']' [] [] rest with
        | error e => rw [hs] at h; simp at h
        | ok p => obtain ⟨g, rest2⟩ := p; rw [hs] at h; exact ih _ _ _ _ _ h
      · cases hs : splitSub n '}' [] [] rest with
        | error e => rw [hs] at h; simp at h
        | ok p => obtain ⟨g, rest2⟩ := p; rw [hs] at h; exact ih _ _ _ _ _ h
      all_goals first
        | exact ih _ _ _ _ _ h
        | simp at h

theorem appendBuffer_good (acc : List Node) (buffer : List Char)
    (hacc : ∀ n ∈ acc, GoodNode n) : ∀ n ∈ (appendBuffer acc buffer).1, GoodNode n := by
  unfold appendBuffer
  split_ifs with h
  · exact hacc
  · intro n hn
    rcases List.mem_append.mp hn with h1 | h1
    · exact hacc n h1
    · rcases List.mem_singleton.mp h1 with rfl
      refine GoodNode.str buffer ?_
      intro hb
      exact h (by simp [hb])

theorem splitSub_good : ∀ (fuel : Nat) (delim : Char) (buffer : List Char)
    (acc : List Node) (chars : List Char) (ns : List Node) (r : List Char),
    (∀ c ∈ chars, c ≠ quoteChar ∧ c ≠ apoChar) →
    (∀ n ∈ acc, GoodNode n) →
    splitSub fuel delim buffer acc chars = .ok (ns, r) →
    ∀ n ∈ ns, GoodNode n := by
  intro fuel
  induction fuel with
  | zero =>
    intro delim buffer acc chars ns r hq hacc h
    cases chars <;> simp [splitSub] at h
  | succ n ih =>
    intro delim buffer acc chars ns r hq hacc h
    cases chars with
    | nil => simp [splitSub] at h
    | cons c rest =>
      have hq' : ∀ x ∈ rest, x ≠ quoteChar ∧ x ≠ apoChar :=
        fun x hx => hq x (List.mem_cons_of_mem c hx)
      rw [splitSub] at h
      split_ifs at h with h1 h2 h3 h4 h5 h6 h7
      · injection h with h
        injection h with hns hr
        subst hns
        exact appendBuffer_good acc buffer hacc
      · exact absurd h2 (by
          rcases hq c (List.mem_cons_self c rest) with ⟨ha, hb⟩
          simp [ha, hb])
      · cases hs : splitSub n ')' [] [] rest with
        | error e => rw [hs] at h; simp at h
        | ok p =>
          obtain ⟨g, rest2⟩ := p
          rw [hs] at h
          have hg : ∀ m ∈ g, GoodNode m := ih _ _ _ _ _ _ hq' (by simp) hs
          have hq2 : ∀ x ∈ rest2, x ≠ quoteChar ∧ x ≠ apoChar :=
            fun x hx => hq' x ((splitSub_rest_sublist n ')' [] [] rest g rest2 hs).subset hx)
          refine ih _ _ _ _ _ _ hq2 ?_ h
          intro m hm
          rcases List.mem_append.mp hm with hma | hma
          · exact appendBuffer_good acc buffer hacc m hma
          · rcases List.mem_singleton.mp hma with rfl
            exact GoodNode.group g hg
      · cases hs : splitSub n ']' [] [] rest with
        | error e => rw [hs] at h; simp at h
        | ok p =>
          obtain ⟨g, rest2⟩ := p
          rw [hs] at h
          have hg : ∀ m ∈ g, GoodNode m := ih _ _ _ _ _ _ hq' (by simp) hs
          have hq2 : ∀ x ∈ rest2, x ≠ quoteChar ∧ x ≠ apoChar :=
            fun x hx => hq' x ((splitSub_rest_sublist n ']' [] [] rest g rest2 hs).subset hx)
          refine ih _ _ _ _ _ _ hq2 ?_ h
          intro m hm
          rcases List.mem_append.mp hm with hma | hma
          · exact appendBuffer_good acc buffer hacc m hma
          · rcases List.mem_singleton.mp hma with rfl
            exact GoodNode.group g hg
      · cases hs : splitSub n '}' [] [] rest with
        | error e => rw [hs] at h; simp at h
        | ok p =>
          obtain ⟨g, rest2⟩ := p
          rw [hs] at h
          have hg : ∀ m ∈ g, GoodNode m := ih _ _ _ _ _ _ hq' (by simp) hs
          have hq2 : ∀ x ∈ rest2, x ≠ quoteChar ∧ x ≠ apoChar :=
            fun x hx => hq' x ((splitSub_rest_sublist n '}' [] [] rest g rest2 hs).subset hx)
          refine ih _ _ _ _ _ _ hq2 ?_ h
          intro m hm
          rcases List.mem_append.mp hm with hma | hma
          · exact appendBuffer_good acc buffer hacc m hma
          · rcases List.mem_singleton.mp hma with rfl
            exact GoodNode.group g hg
      all_goals first
        | exact ih _ _ _ _ _ _ hq' (appendBuffer_good acc buffer hacc) h
        | exact ih _ _ _ _ _ _ hq' hacc h
        | simp at h

theorem smartSplitLoop_good : ∀ (fuel : Nat) (buffer : List Char)
    (acc : List Node) (chars : List Char) (ns : List Node) (r : List Char),
    (∀ c ∈ chars, c ≠ quoteChar ∧ c ≠ apoChar) →
    (∀ n ∈ acc, GoodNode n) →
    smartSplitLoop fuel buffer acc chars = .ok (ns, r) →
    ∀ n ∈ ns, GoodNode n := by
  intro fuel
  induction fuel with
  | zero =>
    intro buffer acc chars ns r hq hacc h
    cases chars with
    | nil =>
      rw [smartSplitLoop] at h
      injection h with h
      injection h with hns hr
      subst hns
      exact appendBuffer_good acc buffer hacc
    | cons c rest => simp [smartSplitLoop] at h
  | succ n ih =>
    intro buffer acc chars ns r hq hacc h
    cases chars with
    | nil =>
      rw [smartSplitLoop] at h
      injection h with h
      injection h with hns hr
      subst hns
      exact appendBuffer_good acc buffer hacc
    | cons c rest =>
      have hq' : ∀ x ∈ rest, x ≠ quoteChar ∧ x ≠ apoChar :=
        fun x hx => hq x (List.mem_cons_of_mem c hx)
      rw [smartSplitLoop] at h
      split_ifs at h with h1 h2 h3 h4 h5 h6 h7
      · exact absurd h1 (by
          rcases hq c (List.mem_cons_self c rest) with ⟨ha, hb⟩
          simp [ha, hb])
      · cases hs : splitSub n ')' [] [] rest with
        | error e => rw [hs] at h; simp at h
        | ok p =>
          obtain ⟨g, rest2⟩ := p
          rw [hs] at h
          have hg : ∀ m ∈ g, GoodNode m := splitSub_good n ')' [] [] rest g rest2 hq' (by simp) hs
          have hq2 : ∀ x ∈ rest2, x ≠ quoteChar ∧ x ≠ apoChar :=
            fun x hx => hq' x ((splitSub_rest_sublist n ')' [] [] rest g rest2 hs).subset hx)
          refine ih _ _ _ _ _ hq2 ?_ h
          intro m hm
          rcases List.mem_append.mp hm with hma | hma
          · exact appendBuffer_good acc buffer hacc m hma
          · rcases List.mem_singleton.mp hma with rfl
            exact GoodNode.group g hg
      · cases hs : splitSub n ']' [] [] rest with
        | error e => rw [hs] at h; simp at h
        | ok p =>
          obtain ⟨g, rest2⟩ := p
          rw [hs] at h
          have hg : ∀ m ∈ g, GoodNode m := splitSub_good n ']' [] [] rest g rest2 hq' (by simp) hs
          have hq2 : ∀ x ∈ rest2, x ≠ quoteChar ∧ x ≠ apoChar :=
            fun x hx => hq' x ((splitSub_rest_sublist n ']' [] [] rest g rest2 hs).subset hx)
          refine ih _ _ _ _ _ hq2 ?_ h
          intro m hm
          rcases List.mem_append.mp hm with hma | hma
          · exact appendBuffer_good acc buffer hacc m hma
          · rcases List.mem_singleton.mp hma with rfl
            exact GoodNode.group g hg
      · cases hs : splitSub n '}' [] [] rest with
        | error e => rw [hs] at h; simp at h
        | ok p =>
          obtain ⟨g, rest2⟩ := p
          rw [hs] at h
          have hg : ∀ m ∈ g, GoodNode m := splitSub_good n '}' [] [] rest g rest2 hq' (by simp) hs
          have hq2 : ∀ x ∈ rest2, x ≠ quoteChar ∧ x ≠ apoChar :=
            fun x hx => hq' x ((splitSub_rest_sublist n '}' [] [] rest g rest2 hs).subset hx)
          refine ih _ _ _ _ _ hq2 ?_ h
          intro m hm
          rcases List.mem_append.mp hm with hma | hma
          · exact appendBuffer_good acc buffer hacc m hma
          · rcases List.mem_singleton.mp hma with rfl
            exact GoodNode.group g hg
      all_goals first
        | exact ih _ _ _ _ _ hq' (appendBuffer_good acc buffer hacc) h
        | exact ih _ _ _ _ _ hq' hacc h
        | simp at h

theorem smartSplit_good (line : List Char) (ns s2 : List Node)
    (hq : ∀ c ∈ line, c ≠ quoteChar ∧ c ≠ apoChar)
    (h : smartSplit line = .ok (ns, s2)) : ∀ n ∈ ns, GoodNode n := by
  rw [smartSplit] at h
  cases hl : smartSplitLoop (line.length + 1) [] [] line with
  | error e => rw [hl] at h; simp at h
  | ok p =>
    obtain ⟨ns0, r⟩ := p
    have hr : r = [] := smartSplitLoop_rest_nil _ _ _ _ _ _ hl
    subst hr
    rw [hl] at h
    simp only [splitSecond, appendBuffer, List.isEmpty_nil] at h
    injection h with h
    injection h with hns hs2
    subst hns
    exact smartSplitLoop_good _ _ _ _ _ _ hq (by simp) hl

/-- C4: the claimed top-level contract of `smartSplit` — a single top-level
comma as the primary/secondary boundary and a second one raising
`errParsingThirdPart` — fails on the code: the `break` in the comma case of
the Go switch terminates the switch, not the loop, so a top-level comma is
silently discarded without flushing the buffer.  "a,b" yields the single
primary atom "ab" with an empty secondary list, and "a,b,c" (two top-level
commas) raises no error; spaces do separate fields as claimed. -/
theorem claim4_comma_boundary_bug :
    smartSplit "a,b".toList = .ok ([Node.str "ab".toList], []) ∧
    smartSplit "a,b,c".toList = .ok ([Node.str "abc".toList], []) ∧
    smartSplit "a b".toList = .ok ([Node.str "a".toList, Node.str "b".toList], []) :=
  ⟨rfl, rfl, rfl⟩

/-- C5: processing `pkg io, type Reader interface, Read([]byte) (int, error)`
registers only the type key "reader" (besides the package-level "" key):
because `smartSplit` never produces a secondary list, the `type` branch
takes its early exit and the member key "reader.read" is never created,
contrary to the claim. -/
theorem claim5_reader_member_missing (version : List Char) :
    processLine [] [] version
        "pkg io, type Reader interface, Read([]byte) (int, error)".toList =
      .ok ([("io".toList, [([], (version, [])), ("reader".toList, (version, []))])],
           [("io".toList, [("io".toList, version, [])]),
            ("reader".toList, [("io Reader".toList, version, [])])]) ∧
    lookupA ([([], (version, [])), ("reader".toList, (version, []))] : PkgSymbols)
        "reader.read".toList = none :=
  ⟨rfl, rfl⟩

/-- C6: processing `pkg net/http, method (*Client) Get(string) (*Response,
error)` in a file of any version registers the lowercased key "client.get"
under package net/http — the receiver type is the first element of the
group after the kind token with the leading `*` stripped, joined by `.` to
the following primary token — introduced in that version; a receiver that
is not a group raises `errParsingReceiver`, an empty receiver name raises
`errParsingReceiverName`, an empty method name raises
`errParsingMethodName`, and fewer than three primary tokens raises
`errParsingMethod`; the four error kinds are pairwise distinct. -/
theorem claim6_method_canonical_name (version : List Char) :
    processLine [] [] version
        "pkg net/http, method (*Client) Get(string) (*Response, error)".toList =
      .ok ([("net/http".toList,
              [([], (version, [])), ("client.get".toList, (version, []))])],
           [("http".toList, [("net/http".toList, version, [])]),
            ("get".toList, [("net/http Client.Get".toList, version, [])])]) ∧
    processLine [] [] version "pkg a, method x Get()".toList =
      .error (.perr .receiverEmpty) ∧
    processLine [] [] version "pkg a, method (()) Get()".toList =
      .error (.perr .receiverNameEmpty) ∧
    processLine [] [] version "pkg a, method (*C) ()".toList =
      .error (.perr .methodNameEmpty) ∧
    processLine [] [] version "pkg a, method C".toList =
      .error (.perr .methodEmpty) ∧
    (ParseErr.receiverEmpty ≠ ParseErr.receiverNameEmpty ∧
     ParseErr.receiverEmpty ≠ ParseErr.methodNameEmpty ∧
     ParseErr.receiverEmpty ≠ ParseErr.methodEmpty ∧
     ParseErr.receiverNameEmpty ≠ ParseErr.methodNameEmpty ∧
     ParseErr.receiverNameEmpty ≠ ParseErr.methodEmpty ∧
     ParseErr.methodNameEmpty ≠ ParseErr.methodEmpty) :=
  ⟨rfl, rfl, rfl, rfl, rfl, by decide⟩

/-- C3: `Since` on lowercased inputs returns `ErrUnknownPackage` for an
absent package and `ErrUnknownSymbol` for an absent symbol (empty string
meaning the package itself) as claimed, but on success it returns only
`since[0]` — the introduced version — and drops the stored deprecated
version, while the claim (and the cmd-package caller, which indexes the
result as a pair) expects the full (introduced, deprecated) pair: here the
record of io/reader is ("go1", "go1.21") yet `Since` yields just "go1". -/
theorem claim3_since_drops_deprecated :
    Since sinceDemo "nosuch".toList [] = .error SinceErr.unknownPackage ∧
    Since sinceDemo "io".toList "writer".toList = .error SinceErr.unknownSymbol ∧
    Since sinceDemo "io".toList [] = .ok "go1".toList ∧
    lookupA sinceDemo "io".toList =
      some [([], ("go1".toList, [])),
            ("reader".toList, ("go1".toList, "go1.21".toList))] ∧
    Since sinceDemo "io".toList "reader".toList = .ok "go1".toList :=
  ⟨rfl, rfl, rfl, rfl, rfl⟩

/-- C2 counterexample: processing the deprecation line
`pkg zzz, func F() //deprecated` against an empty database introduces new
records — the package key "zzz" (with its package-level "" record) and the
symbol key "f" with an empty introduced version — so the key set is not
left unchanged by a deprecation line, refuting the claim at this input. -/
theorem claim2_counterexample :
    processLine [] [] "go1.21".toList "pkg zzz, func F() //deprecated".toList =
      .ok ([("zzz".toList,
              [([], ("go1.21".toList, [])), ("f".toList, ([], "go1.21".toList))])],
           [("zzz".toList, [("zzz".toList, "go1.21".toList, [])])]) ∧
    keysA ([] : Data) = [] ∧
    keysA [("zzz".toList,
            [([], ("go1.21".toList, [])), ("f".toList, ([], "go1.21".toList))])] =
      ["zzz".toList] ∧
    ["zzz".toList] ≠ ([] : List (List Char)) :=
  ⟨rfl, rfl, rfl, by decide⟩

/-- C7 counterexample: a mismatched closing delimiter inside an open group —
input "(]" — raises `errParsingWrongClosing`, not the claimed
`errParsingUnexpectedClosing` (the latter is raised only for a closer with
no open group at top level). -/
theorem claim7_counterexample :
    smartSplit "(]".toList = .error SplitErr.wrongClosing ∧
    SplitErr.wrongClosing ≠ SplitErr.unexpectedClosing :=
  ⟨rfl, by decide⟩

/-- C9: for every input, `smartSplit` returns an empty secondary node list
(its primary loop consumes the whole character stream, so `splitSecond`
runs on an exhausted stream), `smartSplit` can never signal
`errParsingThirdPart`, and a top-level comma is discarded without flushing
the pending atom buffer: "a,b" yields the single primary atom "ab". -/
theorem claim9_secondary_always_empty :
    (∀ line ns s2, smartSplit line = .ok (ns, s2) → s2 = []) ∧
    (∀ line, smartSplit line ≠ .error SplitErr.thirdPart) ∧
    smartSplit "a,b".toList = .ok ([Node.str "ab".toList], []) := by
  refine ⟨?_, ?_, rfl⟩
  · intro line ns s2 h
    rw [smartSplit] at h
    cases hl : smartSplitLoop (line.length + 1) [] [] line with
    | error e => rw [hl] at h; simp at h
    | ok p =>
      obtain ⟨ns0, r⟩ := p
      have hr : r = [] := smartSplitLoop_rest_nil _ _ _ _ _ _ hl
      subst hr
      rw [hl] at h
      simp only [splitSecond, appendBuffer, List.isEmpty_nil] at h
      injection h with h
      injection h with hns hs2
      exact hs2.symm
  · intro line h
    rw [smartSplit] at h
    cases hl : smartSplitLoop (line.length + 1) [] [] line with
    | error e =>
      rw [hl] at h
      injection h with h
      rw [h] at hl
      exact smartSplitLoop_ne_thirdPart _ _ _ _ hl
    | ok p =>
      obtain ⟨ns0, r⟩ := p
      have hr : r = [] := smartSplitLoop_rest_nil _ _ _ _ _ _ hl
      subst hr
      rw [hl] at h
      simp [splitSecond, appendBuffer] at h

/-- Witness for C9 at the concrete input "a,b". -/
theorem claim9_witness :
    ([] : List Node) = [] ∧
    smartSplit "a,b".toList ≠ .error SplitErr.thirdPart :=
  ⟨claim9_secondary_always_empty.1 "a,b".toList [Node.str "ab".toList] [] rfl,
   claim9_secondary_always_empty.2.1 "a,b".toList⟩

/-- C10: any line whose content after comment stripping and trimming is
non-empty but shorter than 12 characters makes the deprecation-suffix
check slice with a negative start index — a runtime slice-bounds panic —
before any grammar error can be returned. -/
theorem claim10_short_line_panic (data : Data) (idx : SIndex)
    (version line body : List Char)
    (hc : cutComment line = some body)
    (hne : trimSpace body ≠ [])
    (hlen : (trimSpace body).length < 12) :
    processLine data idx version line = .error Failure.slicePanic := by
  unfold processLine
  rw [hc]
  simp only [if_neg hne]
  have hnone : goSliceFrom (trimSpace body) (((trimSpace body).length : Int) - 12) = none := by
    unfold goSliceFrom
    rw [if_neg]
    intro hcon
    omega
  rw [hnone]

/-- Witness for C10 at the concrete 8-character line "pkg a, x". -/
theorem claim10_witness :
    processLine [] [] "go1".toList "pkg a, x".toList = .error Failure.slicePanic :=
  claim10_short_line_panic [] [] "go1".toList "pkg a, x".toList "pkg a, x".toList
    rfl (by decide) (by decide)

/-- C2 (amended): processing a deprecation registration updates the
deprecated-version field of the record at the lowercased key and touches no
other key; when the key already exists the key set is unchanged and the
introduced version is preserved, but when the key is absent the code
inserts a brand-new record whose introduced version is empty (Go's zero
value), so a deprecation line can introduce a record. -/
theorem claim2_deprecation_merge (ps : PkgSymbols) (idx : SIndex)
    (pkg symbol version : List Char) :
    (∀ iv dv, lookupA ps (toLowerL symbol) = some (iv, dv) →
      keysA (register ps idx pkg symbol version true).1 = keysA ps ∧
      lookupA (register ps idx pkg symbol version true).1 (toLowerL symbol) =
        some (iv, version)) ∧
    (lookupA ps (toLowerL symbol) = none →
      (register ps idx pkg symbol version true).1 =
        ps ++ [(toLowerL symbol, ([], version))]) ∧
    (∀ k, k ≠ toLowerL symbol →
      lookupA (register ps idx pkg symbol version true).1 k = lookupA ps k) := by
  have hreg : (register ps idx pkg symbol version true).1 =
      setA ps (toLowerL symbol)
        (((lookupA ps (toLowerL symbol)).getD ([], [])).1, version) := rfl
  refine ⟨?_, ?_, ?_⟩
  · intro iv dv h
    rw [hreg, h]
    exact ⟨keysA_setA_present ps (toLowerL symbol) _ _ h,
           lookupA_setA_self ps (toLowerL symbol) _⟩
  · intro h
    rw [hreg, h]
    exact setA_absent_append ps (toLowerL symbol) _ h
  · intro k hk
    rw [hreg]
    exact lookupA_setA_ne ps (toLowerL symbol) k _ hk

/-- Witness for C2's amended theorem: a present key keeps its key set and
introduced version while gaining the deprecated version; an absent key is
appended with an empty introduced version; other keys are untouched. -/
theorem claim2_amended_witness :
    keysA (register ([(['f'], ("go1".toList, ([] : List Char)))] : PkgSymbols)
        [] "zzz".toList "F".toList "go1.21".toList true).1 =
      keysA ([(['f'], ("go1".toList, ([] : List Char)))] : PkgSymbols) ∧
    lookupA (register ([(['f'], ("go1".toList, ([] : List Char)))] : PkgSymbols)
        [] "zzz".toList "F".toList "go1.21".toList true).1 ['f'] =
      some ("go1".toList, "go1.21".toList) ∧
    (register ([] : PkgSymbols) [] "zzz".toList "G".toList "go1.21".toList true).1 =
      [] ++ [(['g'], ([], "go1.21".toList))] ∧
    lookupA (register ([(['f'], ("go1".toList, ([] : List Char)))] : PkgSymbols)
        [] "zzz".toList "F".toList "go1.21".toList true).1 ['x'] =
      lookupA ([(['f'], ("go1".toList, ([] : List Char)))] : PkgSymbols) ['x'] :=
  ⟨((claim2_deprecation_merge [(['f'], ("go1".toList, ([] : List Char)))]
      [] "zzz".toList "F".toList "go1.21".toList).1 "go1".toList [] rfl).1,
   ((claim2_deprecation_merge [(['f'], ("go1".toList, ([] : List Char)))]
      [] "zzz".toList "F".toList "go1.21".toList).1 "go1".toList [] rfl).2,
   (claim2_deprecation_merge [] [] "zzz".toList "G".toList "go1.21".toList).2.1 rfl,
   (claim2_deprecation_merge [(['f'], ("go1".toList, ([] : List Char)))]
      [] "zzz".toList "F".toList "go1.21".toList).2.2 ['x'] (by decide)⟩

theorem register_preserves_intro (ps : PkgSymbols) (idx : SIndex)
    (pkg symbol version : List Char) (deprecated : Bool)
    (s iv dv : List Char) (h : lookupA ps s = some (iv, dv)) :
    ∃ dv2, lookupA (register ps idx pkg symbol version deprecated).1 s =
      some (iv, dv2) := by
  cases deprecated with
  | true =>
    have hreg : (register ps idx pkg symbol version true).1 =
        setA ps (toLowerL symbol)
          (((lookupA ps (toLowerL symbol)).getD ([], [])).1, version) := rfl
    by_cases hs : s = toLowerL symbol
    · refine ⟨version, ?_⟩
      rw [hreg, ← hs, h, lookupA_setA_self]
      simp
    · refine ⟨dv, ?_⟩
      rw [hreg, lookupA_setA_ne ps (toLowerL symbol) s _ hs]
      exact h
  | false =>
    cases hl : lookupA ps (toLowerL symbol) with
    | some v =>
      have : register ps idx pkg symbol version false = (ps, idx) := by
        simp [register, hl]
      rw [this]
      exact ⟨dv, h⟩
    | none =>
      have hne : s ≠ toLowerL symbol := by
        intro he
        rw [he, hl] at h
        cases h
      have hreg : (register ps idx pkg symbol version false).1 =
          setA ps (toLowerL symbol) (version, []) := by
        simp [register, hl]
      rw [hreg, lookupA_setA_ne ps (toLowerL symbol) s _ hne]
      exact ⟨dv, h⟩

theorem setA_register_preserves (data : Data) (idx1 : SIndex)
    (pkg symbol version : List Char) (deprecated : Bool) (ps1 : PkgSymbols)
    (hpkg : lookupA data pkg = some ps1)
    (p s iv dv : List Char) (ps : PkgSymbols)
    (hp : lookupA data p = some ps) (hs : lookupA ps s = some (iv, dv)) :
    ∃ ps2 dv2,
      lookupA (setA data pkg (register ps1 idx1 pkg symbol version deprecated).1) p =
        some ps2 ∧ lookupA ps2 s = some (iv, dv2) := by
  by_cases hpp : p = pkg
  · subst hpp
    have hps : ps1 = ps := by
      have := hp.symm.trans hpkg
      injection this with h
      exact h.symm
    subst hps
    obtain ⟨dv2, hdv2⟩ :=
      register_preserves_intro ps1 idx1 p symbol version deprecated s iv dv hs
    exact ⟨(register ps1 idx1 p symbol version deprecated).1, dv2,
      lookupA_setA_self data p _, hdv2⟩
  · refine ⟨ps, dv, ?_, hs⟩
    rw [lookupA_setA_ne data pkg p _ hpp]
    exact hp

theorem setA_register_preserves_new (data : Data) (idx1 : SIndex)
    (pkg symbol version : List Char) (deprecated : Bool) (ps1 : PkgSymbols)
    (hpkg : lookupA data pkg = none)
    (p s iv dv : List Char) (ps : PkgSymbols)
    (hp : lookupA data p = some ps) (hs : lookupA ps s = some (iv, dv)) :
    ∃ ps2 dv2,
      lookupA (setA (setA data pkg ps1) pkg
          (register ps1 idx1 pkg symbol version deprecated).1) p = some ps2 ∧
        lookupA ps2 s = some (iv, dv2) := by
  by_cases hpp : p = pkg
  · subst hpp
    rw [hp] at hpkg
    cases hpkg
  · refine ⟨ps, dv, ?_, hs⟩
    rw [lookupA_setA_ne _ pkg p _ hpp, lookupA_setA_ne _ pkg p _ hpp]
    exact hp

theorem processLine_preserves_intro (data : Data) (idx : SIndex)
    (version line : List Char) (d2 : Data) (i2 : SIndex)
    (hok : processLine data idx version line = .ok (d2, i2))
    (p s iv dv : List Char) (ps : PkgSymbols)
    (hp : lookupA data p = some ps) (hs : lookupA ps s = some (iv, dv)) :
    ∃ ps2 dv2, lookupA d2 p = some ps2 ∧ lookupA ps2 s = some (iv, dv2) := by
  unfold processLine at hok
  split at hok
  · injection hok with hok
    injection hok with h1 h2
    subst h1
    exact ⟨ps, dv, hp, hs⟩
  · try simp only [] at hok
    split at hok
    · injection hok with hok
      injection hok with h1 h2
      subst h1
      exact ⟨ps, dv, hp, hs⟩
    · split at hok
      · exact absurd hok (by simp)
      · try simp only [] at hok
        split at hok
        · exact absurd hok (by simp)
        · split at hok
          · exact absurd hok (by simp)
          · try simp only [] at hok
            split at hok
            · exact absurd hok (by simp)
            · split at hok
              · exact absurd hok (by simp)
              · split at hok
                · exact absurd hok (by simp)
                · split at hok
                  · exact absurd hok (by simp)
                  · -- success leaf: dispatch on whether the package pre-existed
                    split at hok
                    · rename_i ps1 heqpkg
                      injection hok with hok
                      injection hok with h1 h2
                      subst h1
                      exact setA_register_preserves data idx _ _ version _ ps1
                        heqpkg p s iv dv ps hp hs
                    · rename_i heqpkg
                      injection hok with hok
                      injection hok with h1 h2
                      subst h1
                      exact setA_register_preserves_new data _ _ _ version _ _
                        heqpkg p s iv dv ps hp hs

theorem parseVersionData_preserves_intro :
    ∀ (lines : List (List Char)) (data : Data) (idx : SIndex)
      (version : List Char) (d2 : Data) (i2 : SIndex),
    parseVersionData data idx version lines = .ok (d2, i2) →
    ∀ (p s iv dv : List Char) (ps : PkgSymbols),
    lookupA data p = some ps → lookupA ps s = some (iv, dv) →
    ∃ ps2 dv2, lookupA d2 p = some ps2 ∧ lookupA ps2 s = some (iv, dv2)
  | [], data, idx, version, d2, i2, h, p, s, iv, dv, ps, hp, hs => by
    rw [parseVersionData] at h
    injection h with h
    injection h with h1 h2
    subst h1
    exact ⟨ps, dv, hp, hs⟩
  | line :: rest, data, idx, version, d2, i2, h, p, s, iv, dv, ps, hp, hs => by
    rw [parseVersionData] at h
    cases hpl : processLine data idx version line with
    | error e => rw [hpl] at h; exact absurd h (by simp)
    | ok st =>
      obtain ⟨dmid, imid⟩ := st
      rw [hpl] at h
      obtain ⟨psm, dvm, hpm, hsm⟩ :=
        processLine_preserves_intro data idx version line dmid imid hpl
          p s iv dv ps hp hs
      exact parseVersionData_preserves_intro rest dmid imid version d2 i2 h
        p s iv dvm psm hpm hsm

theorem loadFiles_preserves_intro :
    ∀ (files : List (List Char × List (List Char))) (data : Data) (idx : SIndex)
      (d2 : Data) (i2 : SIndex),
    loadFiles data idx files = .ok (d2, i2) →
    ∀ (p s iv dv : List Char) (ps : PkgSymbols),
    lookupA data p = some ps → lookupA ps s = some (iv, dv) →
    ∃ ps2 dv2, lookupA d2 p = some ps2 ∧ lookupA ps2 s = some (iv, dv2)
  | [], data, idx, d2, i2, h, p, s, iv, dv, ps, hp, hs => by
    rw [loadFiles] at h
    injection h with h
    injection h with h1 h2
    subst h1
    exact ⟨ps, dv, hp, hs⟩
  | (version, lines) :: files, data, idx, d2, i2, h, p, s, iv, dv, ps, hp, hs => by
    rw [loadFiles] at h
    cases hpv : parseVersionData data idx version lines with
    | error e => rw [hpv] at h; exact absurd h (by simp)
    | ok st =>
      obtain ⟨dmid, imid⟩ := st
      rw [hpv] at h
      obtain ⟨psm, dvm, hpm, hsm⟩ :=
        parseVersionData_preserves_intro lines data idx version dmid imid hpv
          p s iv dv ps hp hs
      exact loadFiles_preserves_intro files dmid imid d2 i2 h p s iv dvm psm hpm hsm

/-- C1: the no-override law — once a (package, symbol) record is stored with
introduced version V, processing any further lines and version files (in
whatever order `load` delivers them) leaves the introduced version equal to
V: a later non-deprecation registration of the same lowercased key returns
without touching the record at all, a deprecation updates only the
deprecated field, and the first registration of a fresh key stores the
current file's version. -/
theorem claim1_no_override_law :
    (∀ (data : Data) (idx : SIndex) (files : List (List Char × List (List Char)))
        (d2 : Data) (i2 : SIndex) (p s V dv : List Char) (ps : PkgSymbols),
      lookupA data p = some ps → lookupA ps s = some (V, dv) →
      loadFiles data idx files = .ok (d2, i2) →
      ∃ ps2 dv2, lookupA d2 p = some ps2 ∧ lookupA ps2 s = some (V, dv2)) ∧
    (∀ (ps : PkgSymbols) (idx : SIndex) (pkg symbol version : List Char)
        (r0 : List Char × List Char),
      lookupA ps (toLowerL symbol) = some r0 →
      register ps idx pkg symbol version false = (ps, idx)) ∧
    (∀ (ps : PkgSymbols) (idx : SIndex) (pkg symbol version : List Char),
      lookupA ps (toLowerL symbol) = none →
      lookupA (register ps idx pkg symbol version false).1 (toLowerL symbol) =
        some (version, [])) := by
  refine ⟨?_, ?_, ?_⟩
  · intro data idx files d2 i2 p s V dv ps hp hs hload
    exact loadFiles_preserves_intro files data idx d2 i2 hload p s V dv ps hp hs
  · intro ps idx pkg symbol version r0 h
    simp [register, h]
  · intro ps idx pkg symbol version h
    have hreg : (register ps idx pkg symbol version false).1 =
        setA ps (toLowerL symbol) (version, []) := by
      simp [register, h]
    rw [hreg]
    exact lookupA_setA_self ps (toLowerL symbol) _

/-- Witness for C1: io/reader introduced in go1 keeps introduced version go1
after a go1.1 file that re-declares it (no override) and deprecates it
(deprecation touches only the deprecated field); a non-deprecation
re-registration of a present key leaves table and index untouched; a fresh
key stores the current version. -/
theorem claim1_witness :
    (∃ ps2 dv2,
      lookupA [("io".toList,
        [([], ("go1".toList, ([] : List Char))),
         ("reader".toList, ("go1".toList, "go1.1".toList))])] "io".toList = some ps2 ∧
      lookupA ps2 "reader".toList = some ("go1".toList, dv2)) ∧
    register ([(['f'], ("go1".toList, ([] : List Char)))] : PkgSymbols) []
      "a".toList "F".toList "go1.9".toList false =
      ([(['f'], ("go1".toList, ([] : List Char)))], []) ∧
    lookupA (register ([] : PkgSymbols) [] "a".toList "F".toList "go1.9".toList
        false).1 ['f'] = some ("go1.9".toList, []) :=
  ⟨claim1_no_override_law.1
      [("io".toList, [([], ("go1".toList, [])), ("reader".toList, ("go1".toList, []))])]
      []
      [("go1.1".toList, ["pkg io, type Reader interface, Read([]byte) (int, error)".toList,
                         "pkg io, type Reader interface //deprecated".toList])]
      [("io".toList,
        [([], ("go1".toList, [])), ("reader".toList, ("go1".toList, "go1.1".toList))])]
      []
      "io".toList "reader".toList "go1".toList [] _ rfl rfl rfl,
   claim1_no_override_law.2.1 [(['f'], ("go1".toList, []))] [] "a".toList "F".toList
      "go1.9".toList ("go1".toList, []) rfl,
   claim1_no_override_law.2.2 [] [] "a".toList "F".toList "go1.9".toList rfl⟩

/-- C7 (amended): each of `(` `[` `{` opens a nested group collected by a
recursive call until the matching closer, which returns the group and the
unconsumed remainder; inside a group, comma and space both flush the pending
atom and empty atoms are never retained (for quote-free input, every
returned atom is nonempty, recursively); a closing delimiter with no open
group signals `errParsingUnexpectedClosing` at top level, while a mismatched
closing delimiter inside an open group signals `errParsingWrongClosing` (a
distinct error, contrary to the claim's single error kind); end of input
with an open group signals `errParsingClosing`. -/
theorem claim7_group_handling :
    (∀ (fuel : Nat) (delim : Char) (buffer : List Char) (acc : List Node),
      splitSub fuel delim buffer acc [] = .error SplitErr.closing) ∧
    (∀ (c : Char) (rest : List Char), (c = ')' ∨ c = ']' ∨ c = '}') →
      smartSplit (c :: rest) = .error SplitErr.unexpectedClosing) ∧
    (∀ (fuel : Nat) (delim c : Char) (buffer : List Char) (acc : List Node)
        (rest : List Char),
      (c = ')' ∨ c = ']' ∨ c = '}') → c ≠ delim →
      splitSub (fuel + 1) delim buffer acc (c :: rest) =
        .error SplitErr.wrongClosing) ∧
    (∀ (fuel : Nat) (delim : Char) (buffer : List Char) (acc : List Node)
        (rest : List Char),
      splitSub (fuel + 1) delim buffer acc (delim :: rest) =
        .ok ((appendBuffer acc buffer).1, rest)) ∧
    (∀ (fuel : Nat) (delim : Char) (buffer : List Char) (acc : List Node)
        (rest : List Char) (o cl : Char),
      ((o = '(' ∧ cl = ')') ∨ (o = '[' ∧ cl = ']') ∨ (o = '{' ∧ cl = '}')) →
      (delim = ')' ∨ delim = ']' ∨ delim = '}') →
      splitSub (fuel + 1) delim buffer acc (o :: rest) =
        (match splitSub fuel cl [] [] rest with
         | .error e => .error e
         | .ok (g, rest2) =>
           splitSub fuel delim [] ((appendBuffer acc buffer).1 ++ [Node.group g])
             rest2)) ∧
    (∀ (fuel : Nat) (delim c : Char) (buffer : List Char) (acc : List Node)
        (rest : List Char),
      (c = ',' ∨ c = ' ') → (delim = ')' ∨ delim = ']' ∨ delim = '}') →
      splitSub (fuel + 1) delim buffer acc (c :: rest) =
        splitSub fuel delim [] (appendBuffer acc buffer).1 rest) ∧
    (∀ (line : List Char) (ns s2 : List Node),
      (∀ c ∈ line, c ≠ quoteChar ∧ c ≠ apoChar) →
      smartSplit line = .ok (ns, s2) → ∀ n ∈ ns, GoodNode n) := by
  refine ⟨?_, ?_, ?_, ?_, ?_, ?_, ?_⟩
  · intro fuel delim buffer acc
    cases fuel <;> rfl
  · intro c rest h
    rcases h with rfl | rfl | rfl <;> rfl
  · intro fuel delim c buffer acc rest h1 h2
    rcases h1 with rfl | rfl | rfl <;>
      (rw [splitSub]
       split_ifs with g1 g2 g3 g4 g5 g6 <;>
         first
           | rfl
           | exact absurd g1 h2
           | exact absurd g2 (by decide)
           | exact absurd g3 (by decide)
           | exact absurd g4 (by decide)
           | exact absurd g5 (by decide)
           | exact absurd (by decide) g6)
  · intro fuel delim buffer acc rest
    rw [splitSub, if_pos rfl]
  · intro fuel delim buffer acc rest o cl h1 h2
    rcases h1 with ⟨rfl, rfl⟩ | ⟨rfl, rfl⟩ | ⟨rfl, rfl⟩ <;>
      rcases h2 with rfl | rfl | rfl <;> rfl
  · intro fuel delim c buffer acc rest h1 h2
    rcases h1 with rfl | rfl <;> rcases h2 with rfl | rfl | rfl <;> rfl
  · intro line ns s2 hq h
    exact smartSplit_good line ns s2 hq h

/-- Witness for C7's amended theorem at concrete inputs: end of input inside
a group, a top-level unopened closer, a mismatched closer inside a group, a
matching closer, an opener collecting a nested group, a separator flush, and
nonemptiness of all atoms of a quote-free tokenization. -/
theorem claim7_witness :
    splitSub 3 ')' [] [] [] = .error SplitErr.closing ∧
    smartSplit "]x".toList = .error SplitErr.unexpectedClosing ∧
    splitSub 4 ')' [] [] "]a".toList = .error SplitErr.wrongClosing ∧
    splitSub 4 ')' "ab".toList [] ")c".toList =
      .ok ([Node.str "ab".toList], "c".toList) ∧
    splitSub 6 ')' [] [] "(a)b)".toList =
      .ok ([Node.group [Node.str "a".toList], Node.str "b".toList], []) ∧
    splitSub 4 ')' "a".toList [] ",b)".toList =
      .ok ([Node.str "a".toList, Node.str "b".toList], []) ∧
    (∀ n ∈ [Node.group [Node.str "a".toList], Node.str "b".toList], GoodNode n) :=
  ⟨claim7_group_handling.1 3 ')' [] [],
   claim7_group_handling.2.1 ']' "x".toList (Or.inr (Or.inl rfl)),
   claim7_group_handling.2.2.1 3 ')' ']' [] [] "a".toList (Or.inr (Or.inl rfl))
     (by decide),
   (claim7_group_handling.2.2.2.1 3 ')' "ab".toList [] "c".toList),
   (claim7_group_handling.2.2.2.2.1 5 ')' [] [] "a)b)".toList '(' ')'
       (Or.inl ⟨rfl, rfl⟩) (Or.inl rfl)).trans rfl,
   (claim7_group_handling.2.2.2.2.2.1 3 ')' ',' "a".toList [] "b)".toList
       (Or.inl rfl) (Or.inl rfl)).trans rfl,
   claim7_group_handling.2.2.2.2.2.2 "(a) b".toList
     [Node.group [Node.str "a".toList], Node.str "b".toList] [] (by decide) rfl⟩

/-- C8: fetch/cache contract of `read` — when the local cache read succeeds
its bytes are returned and nothing is fetched or written; on local-read
failure the remote file is fetched, and a body equal after trimming to the
fixed marker "404: Not Found" yields the end-of-series sentinel
`errUnexistingVersion` with nothing cached; any other fetched body is
persisted to the cache path — creating the parent directory when the path
contains a separator — before being returned. -/
theorem claim8_read_cache (env : ReadEnv) (repobase sourceBase fileEnd : List Char) :
    (∀ d, env.localData = some d →
      dataLoader.read env repobase sourceBase fileEnd =
        (.ok d, [.fsRead (repobase ++ fileEnd)])) ∧
    (∀ body, env.localData = none → env.remote = .ok body →
      trimSpace body = "404: Not Found".toList →
      dataLoader.read env repobase sourceBase fileEnd =
        (.error .endOfSeries,
         [.fsRead (repobase ++ fileEnd), .fetch (sourceBase ++ fileEnd)])) ∧
    (∀ body, env.localData = none → env.remote = .ok body →
      trimSpace body ≠ "404: Not Found".toList →
      dataLoader.read env repobase sourceBase fileEnd =
        (.ok body,
         [.fsRead (repobase ++ fileEnd), .fetch (sourceBase ++ fileEnd)] ++
           writeFile (repobase ++ fileEnd) body)) ∧
    (∀ (path data : List Char), IoOp.fileWrite path data ∈ writeFile path data) ∧
    (∀ (path data : List Char) (i : Nat), lastIndexOfChar path '/' = some i →
      IoOp.mkdirAll (path.take i) ∈ writeFile path data) := by
  refine ⟨?_, ?_, ?_, ?_, ?_⟩
  · intro d h
    simp [dataLoader.read, h]
  · intro body h1 h2 h3
    simp [dataLoader.read, h1, h2, h3]
  · intro body h1 h2 h3
    simp [dataLoader.read, h1, h2, h3]
    exact fun hh => h3 (hh.trans rfl)
  · intro path data
    unfold writeFile
    cases lastIndexOfChar path '/' <;> simp
  · intro path data i h
    unfold writeFile
    rw [h]
    simp

/-- Witness for C8 with a one-element cache body, a trimmed not-found body,
and a cached download whose path contains a directory separator. -/
theorem claim8_witness :
    dataLoader.read ⟨some "x".toList, .error ()⟩ "c/go1.".toList "u/api/go1.".toList "txt".toList =
      (.ok "x".toList, [.fsRead "c/go1.txt".toList]) ∧
    dataLoader.read ⟨none, .ok " 404: Not Found ".toList⟩ "c/go1.".toList
        "u/api/go1.".toList "txt".toList =
      (.error .endOfSeries,
       [.fsRead "c/go1.txt".toList, .fetch "u/api/go1.txt".toList]) ∧
    dataLoader.read ⟨none, .ok "pkg a".toList⟩ "c/go1.".toList "u/api/go1.".toList
        "txt".toList =
      (.ok "pkg a".toList,
       [.fsRead "c/go1.txt".toList, .fetch "u/api/go1.txt".toList] ++
         writeFile "c/go1.txt".toList "pkg a".toList) ∧
    IoOp.fileWrite "c/go1.txt".toList "pkg a".toList ∈
      writeFile "c/go1.txt".toList "pkg a".toList ∧
    IoOp.mkdirAll ("c/go1.txt".toList.take 1) ∈
      writeFile "c/go1.txt".toList "pkg a".toList :=
  ⟨(claim8_read_cache ⟨some "x".toList, .error ()⟩ "c/go1.".toList "u/api/go1.".toList
      "txt".toList).1 "x".toList rfl,
   (claim8_read_cache ⟨none, .ok " 404: Not Found ".toList⟩ "c/go1.".toList
      "u/api/go1.".toList "txt".toList).2.1 " 404: Not Found ".toList rfl rfl (by decide),
   (claim8_read_cache ⟨none, .ok "pkg a".toList⟩ "c/go1.".toList "u/api/go1.".toList
      "txt".toList).2.2.1 "pkg a".toList rfl rfl (by decide),
   (claim8_read_cache ⟨none, .ok "pkg a".toList⟩ "c/go1.".toList "u/api/go1.".toList
      "txt".toList).2.2.2.1 "c/go1.txt".toList "pkg a".toList,
   (claim8_read_cache ⟨none, .ok "pkg a".toList⟩ "c/go1.".toList "u/api/go1.".toList
      "txt".toList).2.2.2.2 "c/go1.txt".toList "pkg a".toList 1 (by decide)⟩
